import Mathlib

/-!
Verification of the `tw.py` package manager (awesome-taskwarrior).

This file shallowly embeds the data model and the operations of `tw.py`:
metadata parsing (`MetaFile`), tag filtering (`TagFilter`), the per-file
install ledger (`Manifest`), and the orchestration layer (`AppManager`:
install / remove / update / verify), the latter as a pure state-passing
model with an explicit action trace standing for the process and
filesystem effects.  Theorems about these definitions settle the
specification's claims.
-/

namespace Tw

/-! ## Python string primitives

`tw.py` manipulates strings with `str.strip`, `str.lower`,
`str.split(sep)` and `str.split(sep, 1)`.  We embed these as structural
recursions over the character list of a `String` so that every
definition evaluates by kernel reduction.  All separators used by the
source (`'\n'`, `','`, `':'`, `'='`, `'|'`) are single characters. -/

/-- Whitespace characters stripped by Python's `str.strip()`. -/
def isPyWS (c : Char) : Bool :=
  c = ' ' || c = '\t' || c = '\n' || c = '\r' || c = '\x0b' || c = '\x0c'

/-- Python `str.strip()`: drop leading and trailing whitespace. -/
def pyStrip (s : String) : String :=
  .mk (((s.data.dropWhile isPyWS).reverse.dropWhile isPyWS).reverse)

/-- Python `str.lower()` (ASCII, which is all the source relies on). -/
def pyLower (s : String) : String :=
  .mk (s.data.map Char.toLower)

/-- Core of `str.split(sep)` on a single-character separator. -/
def splitCharsOn (sep : Char) : List Char → List (List Char)
  | [] => [[]]
  | c :: cs =>
    let r := splitCharsOn sep cs
    if c = sep then [] :: r
    else
      match r with
      | [] => [[c]]
      | g :: gs => (c :: g) :: gs

/-- Python `str.split(sep)` for a one-character `sep` (Python semantics:
`"".split(",") = [""]`, empty runs kept). -/
def pySplit (s : String) (sep : Char) : List String :=
  (splitCharsOn sep s.data).map .mk

/-- Core of `str.split(sep, 1)`: split at the first occurrence, or
`none` when the separator does not occur (also the `sep in s` test). -/
def splitFirstChars (sep : Char) : List Char → Option (List Char × List Char)
  | [] => none
  | c :: cs =>
    if c = sep then some ([], cs)
    else (splitFirstChars sep cs).map (fun p => (c :: p.1, p.2))

/-- Python `str.split(sep, 1)` packaged on `String`s. -/
def pySplitFirst (s : String) (sep : Char) : Option (String × String) :=
  (splitFirstChars sep s.data).map (fun p => (.mk p.1, .mk p.2))

/-- Python `sep in s` for a single-character separator. -/
def pyContainsChar (s : String) (sep : Char) : Bool :=
  (splitFirstChars sep s.data).isSome

/-- Python `s.startswith(p)` for a one-character prefix, as used on `'#'`. -/
def pyStartsWith (s : String) (c : Char) : Bool :=
  match s.data with
  | [] => false
  | d :: _ => d = c

/-! ## MetaFile  (`tw.py`, class `MetaFile`)

`MetaFile._parse` builds a `dict` from `key=value` lines.  We model the
`dict` as the list of assignments in program order; since Python's
`dict.__setitem__` overwrites, `dict.get` is last-write-wins, which
`metaGet` implements. -/

/-- The parsed `self.data` of a `MetaFile`: the `key=value` assignments
executed by `_parse`, in order. -/
abbrev MetaData := List (String × String)

/-- Body of the `MetaFile._parse` loop for one raw line: strip it, skip
blanks and `#`-comments, and on `'=' in line` produce
`(key.strip(), value.strip())` from `line.split('=', 1)`.  Lines
without `'='` are silently skipped; nothing ever fails. -/
def parseLine (rawLine : String) : Option (String × String) :=
  let line := pyStrip rawLine
  if line = "" || pyStartsWith line '#' then none
  else
    match pySplitFirst line '=' with
    | some (key, value) => some (pyStrip key, pyStrip value)
    | none => none

/-- Source `MetaFile._parse`: the loop appends one assignment per line that
`parseLine` accepts, in order. -/
def metaParse (content : String) : MetaData :=
  (pySplit content '\n').filterMap parseLine

/-- Source `MetaFile.get(key, default)`: last assignment wins (Python `dict`
overwrite semantics). -/
def metaGet (data : MetaData) (key dflt : String) : String :=
  (data.foldl (fun acc kv => if kv.1 = key then some kv.2 else acc) none).getD dflt

/-- Source `MetaFile.get(key)` with no default: `none` when the key is absent. -/
def metaGetOpt (data : MetaData) (key : String) : Option String :=
  data.foldl (fun acc kv => if kv.1 = key then some kv.2 else acc) none

/-- Source `MetaFile.get_tags`: split `tags=` on `','`, strip + lowercase each
item, drop empties. -/
def get_tags (data : MetaData) : List String :=
  let tags_str := metaGet data "tags" ""
  if tags_str = "" then []
  else ((pySplit tags_str ',').map (fun t => pyLower (pyStrip t))).filter (· ≠ "")

/-- Source `MetaFile.get_files`: split `files=` on `','`; each stripped item
with a `':'` splits at the first `':'` into
`(filename.strip(), file_type.strip())`; an item without `':'` becomes
`(item, 'file')`. -/
def get_files (data : MetaData) : List (String × String) :=
  let files_str := metaGet data "files" ""
  if files_str = "" then []
  else
    (pySplit files_str ',').map (fun rawItem =>
      let item := pyStrip rawItem
      match pySplitFirst item ':' with
      | some (filename, file_type) => (pyStrip filename, pyStrip file_type)
      | none => (item, "file"))

/-- Source `MetaFile.get_checksums`: split `checksums=` on `','`, strip each
item and keep only the non-empty ones (`if c.strip()`). -/
def get_checksums (data : MetaData) : List String :=
  let checksums_str := metaGet data "checksums" ""
  if checksums_str = "" then []
  else ((pySplit checksums_str ',').map pyStrip).filter (· ≠ "")

/-- Modelled from the spec: "`checksums` splits on `,`, paired
positionally with `files`".  The i-th comma-separated slot of the raw
`checksums=` field, stripped.  Kept separate from `get_checksums` (the
source's parser, which additionally drops empty slots) so that the two
readings can be compared. -/
def specChecksumSlots (data : MetaData) : List String :=
  (pySplit (metaGet data "checksums" "") ',').map pyStrip

/-- The checksum `AppManager.verify` uses as expected value for
`files[i]`: `checksums[i]` when `i < len(checksums)` (the loop breaks at
`i >= len(checksums)`), none otherwise. -/
def codeExpectedAt (data : MetaData) (i : ℕ) : Option String :=
  (get_checksums data).get? i

/-- Modelled from the spec: the expected checksum of `files[i]` under
positional pairing with the raw comma slots; an empty slot means the
file has no supplied checksum (unverifiable). -/
def specExpectedAt (data : MetaData) (i : ℕ) : Option String :=
  match (specChecksumSlots data).get? i with
  | none => none
  | some s => if s = "" then none else some s

/-! ## TagFilter  (`tw.py`, class `TagFilter`) -/

/-- A parsed tag filter: `include_tags` and `exclude_tags`, already
lower-cased by `TagFilter._parse`. -/
structure TagFilter where
  include_tags : List String
  exclude_tags : List String
  deriving DecidableEq

/-- The `app_tag_set` built inside `TagFilter.matches`:
`set(tag.lower().strip() for tag in app_tags if tag.strip())`.  We keep
a list; only membership is used, matching Python set membership. -/
def appTagSet (app_tags : List String) : List String :=
  (app_tags.filter (fun t => pyStrip t ≠ "")).map (fun t => pyStrip (pyLower t))

/-- Source `TagFilter.matches` (`matches` is a reserved word in Lean): empty
filter matches everything; otherwise all include tags must be present
and no exclude tag may be. -/
def tagMatches (f : TagFilter) (app_tags : List String) : Bool :=
  let s := appTagSet app_tags
  if f.include_tags.isEmpty && f.exclude_tags.isEmpty then true
  else if !f.include_tags.isEmpty && !(f.include_tags.all (fun t => s.contains t)) then false
  else if !f.exclude_tags.isEmpty && (f.exclude_tags.any (fun t => s.contains t)) then false
  else true

/-! ## Manifest  (`tw.py`, class `Manifest`)

The in-memory state is `self.entries`, a list of records
`{app, version, file, checksum, date}`.  `_save` rewrites the ledger
from `entries` in order, so the list itself is the authoritative
state. -/

/-- One manifest entry (`app|version|file|checksum|date`). -/
structure Entry where
  app : String
  version : String
  file : String
  checksum : String
  date : String
  deriving DecidableEq

/-- Source `Manifest.add`: drop every entry with the same `(app, file)` pair,
then append the new entry (the `date` argument stands for
`datetime.utcnow()`). -/
def manifestAdd (es : List Entry) (app version file_path checksum date : String) :
    List Entry :=
  (es.filter (fun e => !(e.app = app && e.file = file_path))) ++
    [⟨app, version, file_path, checksum, date⟩]

/-- Source `Manifest.remove_app`: drop every entry of the app. -/
def manifestRemoveApp (es : List Entry) (app : String) : List Entry :=
  es.filter (fun e => !(e.app = app))

/-- Source `Manifest.get_files`. -/
def manifestGetFiles (es : List Entry) (app : String) : List String :=
  (es.filter (fun e => e.app = app)).map (·.file)

/-- Source `Manifest.is_installed`. -/
def isInstalled (es : List Entry) (app : String) : Bool :=
  es.any (fun e => e.app = app)

/-- Source `Manifest.get_version`: version of the first matching entry. -/
def manifestGetVersion (es : List Entry) (app : String) : Option String :=
  ((es.filter (fun e => e.app = app)).map (·.version)).head?

/-- A mutation of the manifest state: `add` or `remove_app`. -/
inductive ManifestOp where
  | add (app version path checksum date : String)
  | removeApp (app : String)
  deriving DecidableEq

/-- Apply one manifest operation. -/
def applyOp (es : List Entry) : ManifestOp → List Entry
  | .add a v p c d => manifestAdd es a v p c d
  | .removeApp a => manifestRemoveApp es a

/-- Apply a sequence of manifest operations, oldest first. -/
def applyOps (es : List Entry) (ops : List ManifestOp) : List Entry :=
  ops.foldl applyOp es

/-- The manifest invariant: at most one active entry per
`(package, path)` pair. -/
def AtMostOnePerKey (es : List Entry) : Prop :=
  ∀ a p, (es.filter (fun e => e.app = a && e.file = p)).length ≤ 1

instance : DecidablePred AtMostOnePerKey := fun es => by
  unfold AtMostOnePerKey
  exact decidable_of_iff
    (∀ e ∈ es, (es.filter (fun x => x.app = e.app && x.file = e.file)).length ≤ 1)
    (by
      constructor
      · intro h a p
        cases hf : es.filter (fun e => e.app = a && e.file = p) with
        | nil => simp
        | cons e tl =>
          have he : e ∈ es.filter (fun e => e.app = a && e.file = p) := by
            rw [hf]; exact List.mem_cons_self _ _
          have he' := List.of_mem_filter he
          have hea : e.app = a ∧ e.file = p := by
            simpa using he'
          have := h e (List.mem_of_mem_filter he)
          rwa [hea.1, hea.2, hf] at this
      · intro h e _; exact h e.app e.file)

/-! ## AppManager: target directories, checksum verification

`PathManager` fixes one directory per file role; we name the
directories by string labels.  Disk contents are abstracted as a map
from `(directory label, filename)` to an optional file content, and the
SHA-256 digest as an arbitrary function of the content. -/

/-- Source `AppManager._get_target_dir`: role-to-directory mapping; unknown
roles (including the default role `file`) fall back to the task
directory. -/
def target_dir (file_type : String) : String :=
  if file_type = "hook" then "hooks_dir"
  else if file_type = "script" then "scripts_dir"
  else if file_type = "config" then "config_dir"
  else if file_type = "doc" then "docs_dir"
  else "task_dir"

/-- Abstract disk state: file content by (directory label, filename);
`none` means the file does not exist. -/
def Disk : Type := String × String → Option String

/-- Per-file check of the `verify` loop body, for a file already paired
with checksum `expected`: an empty expected checksum is skipped
(`continue`), a missing file fails, otherwise the recomputed hash is
compared. -/
def fileCheck (hash : String → String) (disk : Disk)
    (filename file_type expected : String) : Bool :=
  if expected = "" then true
  else
    match disk (target_dir file_type, filename) with
    | none => false
    | some content => hash content = expected

/-- Source `AppManager.verify`: fails when the app is not installed or its
meta is missing; returns success outright when the parsed checksum list
is empty; otherwise checks exactly the positional pairs of
`get_files`/`get_checksums` (the loop breaks at
`i >= len(checksums)`, i.e. it walks `files.zip checksums`) and returns
the conjunction of the per-file outcomes. -/
def verify (installed : Bool) (meta : Option MetaData)
    (hash : String → String) (disk : Disk) : Bool :=
  if !installed then false
  else
    match meta with
    | none => false
    | some m =>
      let checksums := get_checksums m
      let files := get_files m
      if checksums.isEmpty then true
      else (files.zip checksums).all (fun fc => fileCheck hash disk fc.1.1 fc.1.2 fc.2)

/-! ## AppManager: install / remove / update

These operations shell out to installer scripts, download installers in
remote mode, and rewrite or reload the manifest.  We model them as pure
functions from an environment oracle and the in-memory manifest to
`(returned bool, action trace, resulting in-memory manifest)`.  The
trace records, in program order, every externally visible effect the
source performs. -/

/-- The source constant `VERSION` of `tw.py`. -/
def VERSION : String := "2.0.0"

/-- One externally visible effect of an `AppManager` operation. -/
inductive Action where
  /-- `RegistryManager._download_installer`: network fetch; `temp` is
  the temporary executable file written on success, `none` on a failed
  download (nothing is written then). -/
  | fetchInstaller (app : String) (temp : Option String)
  /-- `subprocess.run([installer_path, verb])`. -/
  | runInstaller (handle verb : String)
  /-- `os.unlink` of a temporary installer file. -/
  | unlink (path : String)
  /-- A rewrite of the manifest file (`Manifest._save`). -/
  | manifestWrite
  /-- `_install_tw_itself` downloading and writing `tw` (and its
  README) into the scripts/docs directories; `ok` is false when the
  download raised, in which case nothing was written. -/
  | fetchTw (ok : Bool)
  /-- Fallback removal deleting the tracked files of an app. -/
  | deleteTracked (paths : List String)
  deriving DecidableEq

/-- Does an action change the filesystem (manifest file included)? -/
def Action.writesFs : Action → Bool
  | .fetchInstaller _ temp => temp.isSome
  | .unlink _ => true
  | .manifestWrite => true
  | .fetchTw ok => ok
  | .deleteTracked ps => !ps.isEmpty
  | .runInstaller _ _ => false

/-- Is an action an installer-process invocation? -/
def Action.isRun : Action → Bool
  | .runInstaller _ _ => true
  | _ => false

/-- Is an action a manifest-file write? -/
def Action.isManifestWrite : Action → Bool
  | .manifestWrite => true
  | _ => false

/-- The environment oracle: registry mode, installer resolution,
subprocess and download outcomes, and the on-disk manifest contents
observed when the manifest is reloaded after a successful installer
run (`Manifest(self.paths.manifest_file)`; installers register files
themselves, so the reloaded contents are external input). -/
structure Env where
  /-- `PathManager.is_dev_mode`, decided once per process. -/
  isDevMode : Bool
  /-- Dev mode: `installers/<app>.install` when it exists. -/
  localInstaller : String → Option String
  /-- Remote mode: `_download_installer` outcome — the temp file path,
  or `none` when the download failed. -/
  download : String → Option String
  /-- `subprocess.run([handle, verb])`: `.error` models a raised
  exception, `.ok code` the exit code. -/
  run : String → String → Except Unit Int
  /-- Manifest file contents observed on reload after `run handle verb`
  succeeded with exit code 0. -/
  diskManifest : String → String → List Entry
  /-- `_install_tw_itself`: whether the download of `tw.py` succeeds. -/
  twOk : Bool
  /-- `_install_tw_itself`: whether the optional README download
  succeeds and the doc file exists afterwards. -/
  twDocOk : Bool
  /-- `input()` answer to the "remove tw itself?" prompt being `yes`. -/
  confirmRemoveTw : Bool
  /-- `datetime.utcnow()` formatted, for manifest timestamps. -/
  date : String

/-- Source `RegistryManager.get_installer_path`: a direct path in dev mode
(no effect), a downloaded temp file in remote mode (with its fetch
recorded in the trace). -/
def getInstallerPath (env : Env) (app : String) : Option String × List Action :=
  if env.isDevMode then (env.localInstaller app, [])
  else
    match env.download app with
    | none => (none, [.fetchInstaller app none])
    | some temp => (some temp, [.fetchInstaller app (some temp)])

/-- Source `AppManager._install_tw_itself`: dry run only prints; otherwise
`tw.py` is downloaded and written, the manifest records the script
(and, when the README download succeeded, the doc file), each `add`
rewriting the manifest file.  Any exception yields `False`. -/
def installTwItself (env : Env) (es : List Entry) (dryRun : Bool) :
    Bool × List Action × List Entry :=
  if dryRun then (true, [], es)
  else if env.twOk then
    let es1 := manifestAdd es "tw" VERSION "scripts_dir/tw" "" env.date
    if env.twDocOk then
      (true, [.fetchTw true, .manifestWrite, .manifestWrite],
        manifestAdd es1 "tw" VERSION "docs_dir/tw_README.md" "" env.date)
    else (true, [.fetchTw true, .manifestWrite], es1)
  else (false, [.fetchTw false], es)

/-- Source `AppManager.install`: the `tw` special case; the already-installed
guard (reported, returns `True`, no effect); installer resolution;
the dry-run early return; otherwise `<handle> install` is run, the
temp installer is unlinked in production mode (on the exception path
too), and on exit code 0 the manifest is reloaded from disk. -/
def install (env : Env) (es : List Entry) (app : String) (dryRun : Bool) :
    Bool × List Action × List Entry :=
  if app = "tw" then installTwItself env es dryRun
  else if isInstalled es app then (true, [], es)
  else
    match getInstallerPath env app with
    | (none, acts) => (false, acts, es)
    | (some handle, acts) =>
      if dryRun then (true, acts, es)
      else
        let cleanup : List Action := if env.isDevMode then [] else [.unlink handle]
        match env.run handle "install" with
        | .error _ => (false, acts ++ [.runInstaller handle "install"] ++ cleanup, es)
        | .ok code =>
          if code = 0 then
            (true, acts ++ [.runInstaller handle "install"] ++ cleanup,
              env.diskManifest handle "install")
          else (false, acts ++ [.runInstaller handle "install"] ++ cleanup, es)

/-- Source `AppManager.remove`: the `tw` confirmation prompt; the
not-installed guard; with an installer handle, `<handle> remove` is run
(temp unlinked in production mode, exception path included) and on exit
code 0 the manifest is reloaded from disk; without a handle, the
tracked files are deleted and the app's entries purged
(`Manifest.remove_app`, which rewrites the ledger). -/
def remove (env : Env) (es : List Entry) (app : String) :
    Bool × List Action × List Entry :=
  if app = "tw" && !env.confirmRemoveTw then (false, [], es)
  else if !isInstalled es app then (false, [], es)
  else
    match getInstallerPath env app with
    | (some handle, acts) =>
      let cleanup : List Action := if env.isDevMode then [] else [.unlink handle]
      match env.run handle "remove" with
      | .error _ => (false, acts ++ [.runInstaller handle "remove"] ++ cleanup, es)
      | .ok code =>
        if code = 0 then
          (true, acts ++ [.runInstaller handle "remove"] ++ cleanup,
            env.diskManifest handle "remove")
        else (false, acts ++ [.runInstaller handle "remove"] ++ cleanup, es)
    | (none, acts) =>
      (true, acts ++ [.deleteTracked (manifestGetFiles es app), .manifestWrite],
        manifestRemoveApp es app)

/-- Source `AppManager.update`: the `tw` special case reinstalls `tw` itself;
otherwise, when the app is installed it is removed first (a failed
removal aborts the update), and then `install` runs — whether or not
the app was installed to begin with. -/
def update (env : Env) (es : List Entry) (app : String) :
    Bool × List Action × List Entry :=
  if app = "tw" then installTwItself env es false
  else if isInstalled es app then
    match remove env es app with
    | (false, acts, es') => (false, acts, es')
    | (true, acts, es') =>
      let r := install env es' app false
      (r.1, acts ++ r.2.1, r.2.2)
  else install env es app false

/-- Is an action an installer invocation with the `update` verb? -/
def Action.isUpdateVerb : Action → Bool
  | .runInstaller _ v => v = "update"
  | _ => false

/-! ## Concrete inputs used by counterexamples and witnesses -/

/-- A metadata file whose `checksums=` field has an empty slot between
commas. -/
def metaShift : MetaData := metaParse "name=x\nfiles=a,b,c\nchecksums=h1,,h3"

/-- A metadata file with well-formed, gap-free checksums. -/
def metaAligned : MetaData := metaParse "name=x\nfiles=a,b\nchecksums=h1,h2"

/-- A package tracking one hook file, with no `checksums=` field. -/
def metaNoChecksums : MetaData := metaParse "name=demo\nfiles=f.py:hook"

/-- A package tracking one hook file with a supplied checksum. -/
def metaOneChecksum : MetaData := metaParse "name=demo\nfiles=f.py:hook\nchecksums=abc"

/-- A disk on which no file exists. -/
def emptyDisk : Disk := fun _ => none

/-- A remote-mode (production) environment: every download succeeds and
yields the temp path `/tmp/inst`, installers exit 0, the manifest file
read back after a run is empty. -/
def envRemote : Env where
  isDevMode := false
  localInstaller := fun _ => none
  download := fun _ => some "/tmp/inst"
  run := fun _ _ => .ok 0
  diskManifest := fun _ _ => []
  twOk := true
  twDocOk := true
  confirmRemoveTw := true
  date := "2026-01-01T00:00:00Z"

/-- Like `envRemote`, but the installer subprocess raises. -/
def envRunError : Env :=
  { envRemote with run := fun _ _ => .error () }

/-- A dev-mode environment with a local installer for every app. -/
def envDev : Env where
  isDevMode := true
  localInstaller := fun app => some ("installers/" ++ app ++ ".install")
  download := fun _ => none
  run := fun _ _ => .ok 0
  diskManifest := fun _ _ => []
  twOk := true
  twDocOk := true
  confirmRemoveTw := true
  date := "2026-01-01T00:00:00Z"

/-- A remote-mode environment whose installer downloads fail. -/
def envNoInstaller : Env where
  isDevMode := false
  localInstaller := fun _ => none
  download := fun _ => none
  run := fun _ _ => .error ()
  diskManifest := fun _ _ => []
  twOk := false
  twDocOk := false
  confirmRemoveTw := false
  date := "2026-01-01T00:00:00Z"

/-- A manifest with one installed file of app `demo`. -/
def demoEntry : Entry :=
  ⟨"demo", "1.0", "hooks_dir/f.py", "", "2025-01-01T00:00:00Z"⟩

/-- The `name=` bindings a metadata text contains, line by line: the
stripped values of the accepted `key=value` lines whose stripped key is
`name`. -/
def nameBindings (content : String) : List String :=
  (pySplit content '\n').filterMap (fun rawLine =>
    match parseLine rawLine with
    | some (k, v) => if k = "name" then some v else none
    | none => none)

/-- The raw comma-items of the `files=` field. -/
def rawFileItems (data : MetaData) : List String :=
  pySplit (metaGet data "files" "") ','

end Tw

/-! ## Helper lemmas -/

namespace Tw

/-- Any predicate holds on all elements of an empty list. -/
theorem all_of_isEmpty : ∀ l : List String, l.isEmpty = true →
    ∀ p : String → Bool, l.all p = true := by
  intro l hl p; cases l with | nil => rfl | cons => cases hl

/-- No predicate holds on any element of an empty list. -/
theorem any_of_isEmpty : ∀ l : List String, l.isEmpty = true →
    ∀ p : String → Bool, l.any p = false := by
  intro l hl p; cases l with | nil => rfl | cons => cases hl

/-- The branching of `TagFilter.matches` collapses to one Boolean
formula: all include tags present and no exclude tag present. -/
theorem tagMatches_eq (f : TagFilter) (tags : List String) :
    tagMatches f tags =
      (f.include_tags.all (fun t => (appTagSet tags).contains t) &&
       !(f.exclude_tags.any (fun t => (appTagSet tags).contains t))) := by
  obtain ⟨inc, exc⟩ := f
  simp only [tagMatches]
  split_ifs with h1 h2 h3
  · simp only [Bool.and_eq_true] at h1
    rw [all_of_isEmpty _ h1.1, any_of_isEmpty _ h1.2]; rfl
  · simp only [Bool.and_eq_true, Bool.not_eq_true'] at h2
    rw [h2.2]; rfl
  · simp only [Bool.and_eq_true] at h3
    rw [h3.2]; simp
  · cases hA : inc.all (fun t => (appTagSet tags).contains t) with
    | false =>
      exfalso; apply h2
      have hE : inc.isEmpty = false := by
        cases hE : inc.isEmpty with
        | true => rw [all_of_isEmpty _ hE] at hA; cases hA
        | false => rfl
      rw [hE, hA]; rfl
    | true =>
      cases hB : exc.any (fun t => (appTagSet tags).contains t) with
      | true =>
        exfalso; apply h3
        have hE : exc.isEmpty = false := by
          cases hE : exc.isEmpty with
          | true => rw [any_of_isEmpty _ hE] at hB; cases hB
          | false => rfl
        rw [hE, hB]; rfl
      | false => rfl

/-- After `Manifest.add`, filtering for the added `(app, file)` pair
yields exactly the new entry. -/
theorem filter_key_manifestAdd (es : List Entry) (a v p c d : String) :
    (manifestAdd es a v p c d).filter (fun e => e.app = a && e.file = p) =
      [⟨a, v, p, c, d⟩] := by
  unfold manifestAdd
  rw [List.filter_append]
  have h0 : (es.filter (fun e => !(e.app = a && e.file = p))).filter
      (fun e => e.app = a && e.file = p) = [] := by
    rw [List.filter_eq_nil_iff]
    intro e he
    have h1 := List.of_mem_filter he
    simp only [Bool.not_eq_true'] at h1
    simp [h1]
  rw [h0]
  simp

/-- Filtering twice never yields more elements than filtering once. -/
theorem length_filter_filter_le (p q : Entry → Bool) (l : List Entry) :
    ((l.filter q).filter p).length ≤ (l.filter p).length :=
  List.Sublist.length_le (List.Sublist.filter p (List.filter_sublist l))

/-- `Manifest.add` preserves the at-most-one-entry-per-pair invariant. -/
theorem atMostOne_manifestAdd (es : List Entry) (h : AtMostOnePerKey es)
    (a v p c d : String) : AtMostOnePerKey (manifestAdd es a v p c d) := by
  intro a' p'
  unfold manifestAdd
  rw [List.filter_append, List.length_append]
  by_cases hk : a = a' ∧ p = p'
  · obtain ⟨rfl, rfl⟩ := hk
    have h0 : (es.filter (fun e => !(e.app = a && e.file = p))).filter
        (fun e => e.app = a && e.file = p) = [] := by
      rw [List.filter_eq_nil_iff]
      intro e he
      have h1 := List.of_mem_filter he
      simp only [Bool.not_eq_true'] at h1
      simp [h1]
    rw [h0]
    simp
  · have h1 : ([(⟨a, v, p, c, d⟩ : Entry)]).filter
        (fun e => e.app = a' && e.file = p') = [] := by
      simp only [List.filter_eq_nil_iff, List.mem_singleton]
      rintro e rfl
      simp only [Bool.and_eq_true, decide_eq_true_eq, not_and]
      intro h2 h3
      exact hk ⟨h2, h3⟩
    rw [h1]
    simp only [List.length_nil, Nat.add_zero]
    exact le_trans (length_filter_filter_le _ _ es) (h a' p')

/-- `Manifest.remove_app` preserves the invariant. -/
theorem atMostOne_manifestRemoveApp (es : List Entry) (h : AtMostOnePerKey es)
    (a : String) : AtMostOnePerKey (manifestRemoveApp es a) := by
  intro a' p'
  exact le_trans (length_filter_filter_le _ _ es) (h a' p')

/-- Any sequence of manifest operations preserves the invariant. -/
theorem atMostOne_applyOps (es : List Entry) (h : AtMostOnePerKey es)
    (ops : List ManifestOp) : AtMostOnePerKey (applyOps es ops) := by
  induction ops generalizing es with
  | nil => exact h
  | cons op rest ih =>
    cases op with
    | add a v p c d => exact ih _ (atMostOne_manifestAdd es h a v p c d)
    | removeApp a => exact ih _ (atMostOne_manifestRemoveApp es h a)

/-- Prepending an element moves `getLast?` to an `Option.or`. -/
theorem getLast?_cons_or {α : Type} (a : α) (l : List α) :
    (a :: l).getLast? = l.getLast?.or (some a) := by
  induction l with
  | nil => rfl
  | cons b t ih =>
    rw [List.getLast?_cons_cons]
    have hs : (b :: t).getLast?.isSome := by
      rw [List.getLast?_isSome]; exact List.cons_ne_nil b t
    cases h : (b :: t).getLast? with
    | none => rw [h] at hs; cases hs
    | some x => rfl

/-- The last-write-wins fold of `dict.get` equals the last of the
selected values (falling back to the accumulator). -/
theorem foldl_lookup_eq_getLast {α : Type} (key : String)
    (data : List (String × α)) (acc : Option α) :
    data.foldl (fun acc kv => if kv.1 = key then some kv.2 else acc) acc =
      ((data.filterMap (fun kv => if kv.1 = key then some kv.2 else none)).getLast?).or acc := by
  induction data generalizing acc with
  | nil => simp
  | cons kv tl ih =>
    rw [List.foldl_cons, ih]
    by_cases hk : kv.1 = key
    · simp only [hk, if_true, List.filterMap_cons, if_pos rfl]
      rw [getLast?_cons_or, Option.or_assoc]
      rfl
    · simp only [if_neg hk, List.filterMap_cons]

/-- `MetaFile.get` reads the last assignment of a key. -/
theorem metaGetOpt_eq_getLast (data : MetaData) (key : String) :
    metaGetOpt data key =
      (data.filterMap (fun kv => if kv.1 = key then some kv.2 else none)).getLast? := by
  unfold metaGetOpt
  rw [foldl_lookup_eq_getLast]
  cases (data.filterMap (fun kv => if kv.1 = key then some kv.2 else none)).getLast? <;> rfl

/-- When every raw checksum slot is non-empty, the source's parsed
checksum list coincides with the raw positional slots. -/
theorem get_checksums_eq_slots (m : MetaData)
    (h : ∀ s ∈ specChecksumSlots m, s ≠ "") :
    get_checksums m = specChecksumSlots m := by
  by_cases he : metaGet m "checksums" "" = ""
  · exfalso
    apply h "" _ rfl
    unfold specChecksumSlots
    rw [he]
    decide
  · show (if metaGet m "checksums" "" = "" then []
      else ((pySplit (metaGet m "checksums" "") ',').map pyStrip).filter (· ≠ "")) =
      specChecksumSlots m
    rw [if_neg he]
    unfold specChecksumSlots
    exact List.filter_eq_self.mpr (fun a ha => by simpa using h a ha)

/-- Every parsed checksum is a non-empty string (the parser filters the
empty ones out). -/
theorem mem_get_checksums_ne (m : MetaData) {c : String}
    (hc : c ∈ get_checksums m) : c ≠ "" := by
  revert hc
  show c ∈ (if metaGet m "checksums" "" = "" then []
    else ((pySplit (metaGet m "checksums" "") ',').map pyStrip).filter (· ≠ "")) →
    c ≠ ""
  by_cases he : metaGet m "checksums" "" = ""
  · rw [if_pos he]; intro hc; cases hc
  · rw [if_neg he]; intro hc; simpa using List.of_mem_filter hc

/-- Unfolding of `verify` for an installed app with a present meta. -/
theorem verify_unfold (m : MetaData) (hash : String → String) (disk : Disk) :
    verify true (some m) hash disk =
      (if (get_checksums m).isEmpty then true
       else ((get_files m).zip (get_checksums m)).all
         (fun fc => fileCheck hash disk fc.1.1 fc.1.2 fc.2)) := rfl

/-- An app is never reported installed after `remove_app` purged it. -/
theorem isInstalled_manifestRemoveApp (es : List Entry) (app : String) :
    isInstalled (manifestRemoveApp es app) app = false := by
  unfold isInstalled manifestRemoveApp
  rw [List.any_eq_false]
  intro e he
  have h1 := List.of_mem_filter he
  simp only [Bool.not_eq_true'] at h1
  simp [h1]

end Tw

namespace Tw

/-- Neither branch of `install` ever invokes the installer with the
`update` verb. -/
theorem install_no_update_verb (env : Env) (es : List Entry) (app : String) (dry : Bool) :
    (install env es app dry).2.1.any Action.isUpdateVerb = false := by
  by_cases htw : app = "tw"
  · subst htw
    cases dry <;> by_cases hok : env.twOk = true <;> by_cases hdoc : env.twDocOk = true <;>
      simp [install, installTwItself, hok, hdoc, Action.isUpdateVerb]
  · by_cases hins : isInstalled es app = true
    · simp [install, htw, hins]
    · cases hdev : env.isDevMode
      · cases hdl : env.download app with
        | none => simp [install, getInstallerPath, htw, hins, hdev, hdl, Action.isUpdateVerb]
        | some temp =>
          cases dry
          · cases hrun : env.run temp "install" with
            | error e =>
              simp [install, getInstallerPath, htw, hins, hdev, hdl, hrun, Action.isUpdateVerb]
            | ok code =>
              by_cases hc : code = 0 <;>
                simp [install, getInstallerPath, htw, hins, hdev, hdl, hrun, hc,
                  Action.isUpdateVerb]
          · simp [install, getInstallerPath, htw, hins, hdev, hdl, Action.isUpdateVerb]
      · cases hloc : env.localInstaller app with
        | none => simp [install, getInstallerPath, htw, hins, hdev, hloc]
        | some handle =>
          cases dry
          · cases hrun : env.run handle "install" with
            | error e =>
              simp [install, getInstallerPath, htw, hins, hdev, hloc, hrun, Action.isUpdateVerb]
            | ok code =>
              by_cases hc : code = 0 <;>
                simp [install, getInstallerPath, htw, hins, hdev, hloc, hrun, hc,
                  Action.isUpdateVerb]
          · simp [install, getInstallerPath, htw, hins, hdev, hloc, Action.isUpdateVerb]

/-- Neither branch of `remove` ever invokes the installer with the
`update` verb. -/
theorem remove_no_update_verb (env : Env) (es : List Entry) (app : String) :
    (remove env es app).2.1.any Action.isUpdateVerb = false := by
  by_cases hprompt : (app = "tw" && !env.confirmRemoveTw) = true
  · simp [remove, hprompt]
  · by_cases hins : isInstalled es app = true
    · cases hdev : env.isDevMode
      · cases hdl : env.download app with
        | none => simp [remove, getInstallerPath, hprompt, hins, hdev, hdl, Action.isUpdateVerb]
        | some temp =>
          cases hrun : env.run temp "remove" with
          | error e =>
            simp [remove, getInstallerPath, hprompt, hins, hdev, hdl, hrun, Action.isUpdateVerb]
          | ok code =>
            by_cases hc : code = 0 <;>
              simp [remove, getInstallerPath, hprompt, hins, hdev, hdl, hrun, hc,
                Action.isUpdateVerb]
      · cases hloc : env.localInstaller app with
        | none => simp [remove, getInstallerPath, hprompt, hins, hdev, hloc, Action.isUpdateVerb]
        | some handle =>
          cases hrun : env.run handle "remove" with
          | error e =>
            simp [remove, getInstallerPath, hprompt, hins, hdev, hloc, hrun, Action.isUpdateVerb]
          | ok code =>
            by_cases hc : code = 0 <;>
              simp [remove, getInstallerPath, hprompt, hins, hdev, hloc, hrun, hc,
                Action.isUpdateVerb]
    · simp [remove, hprompt, hins]

/-- A failed `install` leaves the in-memory manifest untouched (only
the exit-code-0 path reloads it). -/
theorem install_fail_keeps_manifest (env : Env) (es : List Entry) (app : String) (dry : Bool)
    (h : (install env es app dry).1 = false) : (install env es app dry).2.2 = es := by
  revert h
  by_cases htw : app = "tw"
  · subst htw
    cases dry <;> by_cases hok : env.twOk = true <;> by_cases hdoc : env.twDocOk = true <;>
      simp [install, installTwItself, hok, hdoc]
  · by_cases hins : isInstalled es app = true
    · simp [install, htw, hins]
    · cases hdev : env.isDevMode
      · cases hdl : env.download app with
        | none => simp [install, getInstallerPath, htw, hins, hdev, hdl]
        | some temp =>
          cases dry
          · cases hrun : env.run temp "install" with
            | error e => simp [install, getInstallerPath, htw, hins, hdev, hdl, hrun]
            | ok code =>
              by_cases hc : code = 0 <;>
                simp [install, getInstallerPath, htw, hins, hdev, hdl, hrun, hc]
          · simp [install, getInstallerPath, htw, hins, hdev, hdl]
      · cases hloc : env.localInstaller app with
        | none => simp [install, getInstallerPath, htw, hins, hdev, hloc]
        | some handle =>
          cases dry
          · cases hrun : env.run handle "install" with
            | error e => simp [install, getInstallerPath, htw, hins, hdev, hloc, hrun]
            | ok code =>
              by_cases hc : code = 0 <;>
                simp [install, getInstallerPath, htw, hins, hdev, hloc, hrun, hc]
          · simp [install, getInstallerPath, htw, hins, hdev, hloc]

/-- `update` on a not-installed non-`tw` app is exactly `install`. -/
theorem update_eq_not_installed (env : Env) (es : List Entry) (app : String)
    (htw : app ≠ "tw") (h : isInstalled es app = false) :
    update env es app = install env es app false := by
  unfold update
  rw [if_neg htw, h]
  rfl

/-- `update` aborts with the failed removal's outcome. -/
theorem update_eq_remove_failed (env : Env) (es : List Entry) (app : String)
    (htw : app ≠ "tw") (h : isInstalled es app = true)
    {acts : List Action} {es' : List Entry}
    (hrem : remove env es app = (false, acts, es')) :
    update env es app = (false, acts, es') := by
  unfold update
  rw [if_neg htw, h, hrem]
  rfl

/-- After a successful removal, `update` continues with `install` and
concatenates the traces. -/
theorem update_eq_remove_ok (env : Env) (es : List Entry) (app : String)
    (htw : app ≠ "tw") (h : isInstalled es app = true)
    {acts : List Action} {es' : List Entry}
    (hrem : remove env es app = (true, acts, es')) :
    update env es app = ((install env es' app false).1,
      acts ++ (install env es' app false).2.1, (install env es' app false).2.2) := by
  unfold update
  rw [if_neg htw, h, hrem]
  rfl

/-- When no installer handle resolves, `remove` deletes the tracked
files and purges the app's entries itself. -/
theorem remove_fallback (env : Env) (es : List Entry) (app : String)
    (htw : app ≠ "tw") (h : isInstalled es app = true)
    (hgip : (getInstallerPath env app).1 = none) :
    remove env es app = (true,
      (getInstallerPath env app).2 ++
        [.deleteTracked (manifestGetFiles es app), .manifestWrite],
      manifestRemoveApp es app) := by
  unfold remove
  have hprompt : (app = "tw" && !env.confirmRemoveTw) = false := by
    simp [htw]
  rw [hprompt, h]
  rcases hg : getInstallerPath env app with ⟨o, acts⟩
  rw [hg] at hgip
  simp only at hgip
  subst hgip
  rfl

end Tw

/-! ## Claim theorems -/

namespace Tw

/-- C1 counterexample: with `checksums=h1,,h3` and three files, the
source drops the empty slot, so `verify`'s expected checksum for
`files[1]` is `h3` — the raw slot for `files[2]` — instead of leaving
`files[1]` unverified; positional alignment with the raw comma slots
fails at index 1. -/
theorem C1_counterexample :
    1 < min (get_files metaShift).length (specChecksumSlots metaShift).length
    ∧ codeExpectedAt metaShift 1 = some "h3"
    ∧ specExpectedAt metaShift 1 = none
    ∧ ¬ (∀ i, i < min (get_files metaShift).length (specChecksumSlots metaShift).length →
          codeExpectedAt metaShift i = specExpectedAt metaShift i) := by decide

/-- C1 (amended): when every comma slot of the `checksums=` value is
non-empty after stripping, the parsed checksum list equals the raw
positional slots, the expected checksum of `files[i]` is slot `i` for
every `i` below both lengths, and `verify` examines exactly
`min(len(files), len(checksums))` pairs (surplus checksums ignored,
trailing files unverified). -/
theorem C1_checksum_alignment (m : MetaData)
    (h : ∀ s ∈ specChecksumSlots m, s ≠ "") :
    get_checksums m = specChecksumSlots m
    ∧ (∀ i, i < min (get_files m).length (specChecksumSlots m).length →
        codeExpectedAt m i = specExpectedAt m i)
    ∧ ((get_files m).zip (get_checksums m)).length =
        min (get_files m).length (get_checksums m).length := by
  have h1 := get_checksums_eq_slots m h
  refine ⟨h1, fun i hi => ?_, by rw [List.length_zip]⟩
  have hi2 : i < (specChecksumSlots m).length := lt_of_lt_of_le hi (min_le_right _ _)
  have hx : (specChecksumSlots m).get? i =
      some ((specChecksumSlots m).get ⟨i, hi2⟩) := List.get?_eq_get hi2
  have hxne : (specChecksumSlots m).get ⟨i, hi2⟩ ≠ "" :=
    h _ (List.get_mem _ _ _)
  unfold codeExpectedAt specExpectedAt
  rw [h1, hx]
  show some ((specChecksumSlots m).get ⟨i, hi2⟩) =
    if (specChecksumSlots m).get ⟨i, hi2⟩ = "" then none
    else some ((specChecksumSlots m).get ⟨i, hi2⟩)
  rw [if_neg hxne]

/-- C1 witness: a gap-free `checksums=h1,h2` metadata satisfies the
hypothesis and the alignment conclusion. -/
theorem C1_checksum_alignment_witness :
    (∀ s ∈ specChecksumSlots metaAligned, s ≠ "")
    ∧ (get_checksums metaAligned = specChecksumSlots metaAligned
       ∧ (∀ i, i < min (get_files metaAligned).length (specChecksumSlots metaAligned).length →
           codeExpectedAt metaAligned i = specExpectedAt metaAligned i)
       ∧ ((get_files metaAligned).zip (get_checksums metaAligned)).length =
           min (get_files metaAligned).length (get_checksums metaAligned).length) :=
  ⟨by decide, C1_checksum_alignment metaAligned (by decide)⟩

/-- C2 counterexample: an installed package tracking one file with no
`checksums=` field, whose file is missing from disk, still verifies
successfully — `verify` returns success when no checksums parse,
contradicting the claim that a deleted tracked file fails regardless of
checksum availability. -/
theorem C2_counterexample :
    isInstalled [demoEntry] "demo" = true
    ∧ get_files metaNoChecksums = [("f.py", "hook")]
    ∧ emptyDisk (target_dir "hook", "f.py") = none
    ∧ verify true (some metaNoChecksums) id emptyDisk = true := by decide

/-- C2 (amended): `verify` fails on a missing tracked file only when
that file is positionally paired with a (necessarily non-empty)
checksum; when no checksums parse it succeeds regardless of disk state;
otherwise the result is the conjunction of the per-file outcomes over
the checksum-paired files. -/
theorem C2_verify_semantics :
    (∀ (m : MetaData) (hash : String → String) (disk : Disk) (i : ℕ)
      (h1 : i < (get_files m).length), i < (get_checksums m).length →
      disk (target_dir ((get_files m).get ⟨i, h1⟩).2, ((get_files m).get ⟨i, h1⟩).1) = none →
      verify true (some m) hash disk = false)
    ∧ (∀ (m : MetaData) (hash : String → String) (disk : Disk),
        get_checksums m = [] → verify true (some m) hash disk = true)
    ∧ (∀ (m : MetaData) (hash : String → String) (disk : Disk),
        get_checksums m ≠ [] →
        (verify true (some m) hash disk = true ↔
          ∀ fc ∈ (get_files m).zip (get_checksums m),
            fileCheck hash disk fc.1.1 fc.1.2 fc.2 = true)) := by
  refine ⟨?_, ?_, ?_⟩
  · intro m hash disk i h1 h2 hmiss
    rw [verify_unfold]
    have hne : (get_checksums m).isEmpty = false := by
      cases h : get_checksums m with
      | nil => rw [h] at h2; cases h2
      | cons a l => rfl
    rw [hne]
    simp only [Bool.false_eq_true, if_false]
    rw [List.all_eq_false]
    have hzip : i < ((get_files m).zip (get_checksums m)).length := by
      rw [List.length_zip]; exact lt_min h1 h2
    refine ⟨((get_files m).zip (get_checksums m)).get ⟨i, hzip⟩, List.get_mem _ _ _, ?_⟩
    have hget : ((get_files m).zip (get_checksums m)).get ⟨i, hzip⟩ =
        ((get_files m).get ⟨i, h1⟩, (get_checksums m).get ⟨i, h2⟩) := by
      simp [List.getElem_zip]
    rw [hget]
    have hcne : (get_checksums m).get ⟨i, h2⟩ ≠ "" :=
      mem_get_checksums_ne m (List.get_mem _ _ _)
    simp only [fileCheck, if_neg hcne, hmiss]
    exact fun hcon => by cases hcon
  · intro m hash disk hempty
    rw [verify_unfold, hempty]
    rfl
  · intro m hash disk hne
    rw [verify_unfold]
    have hne' : (get_checksums m).isEmpty = false := by
      cases h : get_checksums m with
      | nil => exact absurd h hne
      | cons a l => rfl
    rw [hne']
    simp only [Bool.false_eq_true, if_false]
    exact List.all_eq_true

/-- C2 witness: with a supplied checksum, the missing tracked file does
make `verify` fail. -/
theorem C2_verify_semantics_witness :
    verify true (some metaOneChecksum) id emptyDisk = false :=
  C2_verify_semantics.1 metaOneChecksum id emptyDisk 0 (by decide) (by decide) rfl

/-- C3: `Manifest.add` upserts by `(app, path)` — after two adds of the
same pair, exactly one entry for that pair remains and it carries the
second call's data; and any sequence of `add`/`remove_app` operations
preserves the at-most-one-active-entry-per-(package, path) invariant. -/
theorem C3_manifest_upsert :
    (∀ (es : List Entry) (a p v₁ c₁ d₁ v₂ c₂ d₂ : String),
      (manifestAdd (manifestAdd es a v₁ p c₁ d₁) a v₂ p c₂ d₂).filter
        (fun e => e.app = a && e.file = p) = [⟨a, v₂, p, c₂, d₂⟩])
    ∧ (∀ es : List Entry, AtMostOnePerKey es →
        ∀ ops : List ManifestOp, AtMostOnePerKey (applyOps es ops)) :=
  ⟨fun _ a _ _v₁ _c₁ _d₁ v₂ c₂ d₂ => filter_key_manifestAdd _ a v₂ _ c₂ d₂,
   fun es h ops => atMostOne_applyOps es h ops⟩

/-- C3 witness: starting from the empty manifest, two upserts of the
same pair keep the invariant. -/
theorem C3_manifest_upsert_witness :
    AtMostOnePerKey (applyOps []
      [ManifestOp.add "demo" "1.0" "hooks_dir/f.py" "c1" "d1",
       ManifestOp.add "demo" "2.0" "hooks_dir/f.py" "c2" "d2"]) :=
  C3_manifest_upsert.2 [] (by decide) _

end Tw

namespace Tw

/-- C4 counterexample: in remote mode, dry-run `install` downloads the
installer to a temporary file before the dry-run check — a filesystem
mutation — even though it returns success with only a preview. -/
theorem C4_counterexample :
    (install envRemote [] "demo" true).1 = true
    ∧ (install envRemote [] "demo" true).2.1 =
        [Action.fetchInstaller "demo" (some "/tmp/inst")]
    ∧ (install envRemote [] "demo" true).2.1.any Action.writesFs = true := by decide

/-- C4 (amended): dry-run `install` never runs the installer process,
never writes the manifest file, and leaves the in-memory manifest
unchanged; in dev (local) mode it performs no externally visible action
at all — but in remote mode the installer download still happens. -/
theorem C4_dry_run_frame (env : Env) (es : List Entry) (app : String) :
    ((install env es app true).2.1.any Action.isRun = false)
    ∧ ((install env es app true).2.1.any Action.isManifestWrite = false)
    ∧ (install env es app true).2.2 = es
    ∧ (env.isDevMode = true → (install env es app true).2.1 = []) := by
  by_cases htw : app = "tw"
  · subst htw
    simp [install, installTwItself]
  · by_cases hins : isInstalled es app = true
    · simp [install, htw, hins]
    · cases hdev : env.isDevMode
      · cases hdl : env.download app
        · simp [install, getInstallerPath, htw, hins, hdev, hdl,
            Action.isRun, Action.isManifestWrite]
        · simp [install, getInstallerPath, htw, hins, hdev, hdl,
            Action.isRun, Action.isManifestWrite]
      · cases hloc : env.localInstaller app
        · simp [install, getInstallerPath, htw, hins, hdev, hloc]
        · simp [install, getInstallerPath, htw, hins, hdev, hloc]

/-- C4 witness: in dev mode the dry run has an empty action trace. -/
theorem C4_dry_run_frame_witness :
    envDev.isDevMode = true ∧ (install envDev [] "demo" true).2.1 = [] :=
  ⟨rfl, (C4_dry_run_frame envDev [] "demo").2.2.2 rfl⟩

/-- C5 counterexample: `update` on a package that is not installed does
not fail — it succeeds by installing — and its trace runs the installer
yet never with the `update` verb, contradicting both the
requires-installed and the attempts-update-verb-first parts of the
claim. -/
theorem C5_counterexample :
    isInstalled [] "demo" = false
    ∧ (update envRemote [] "demo").1 = true
    ∧ (update envRemote [] "demo").2.1.any Action.isRun = true
    ∧ (update envRemote [] "demo").2.1.any Action.isUpdateVerb = false := by decide

/-- C5 (amended): for a non-`tw` package, `update` never invokes the
`update` verb; on a not-installed package it is exactly `install`; a
failed removal aborts the update with the removal's outcome; if removal
succeeds and the re-install fails, the manifest stays as the removal
left it; and when no installer handle resolves, the removal purges the
app's entries, leaving it NotInstalled. -/
theorem C5_update_behavior (env : Env) (es : List Entry) (app : String)
    (htw : app ≠ "tw") :
    ((update env es app).2.1.any Action.isUpdateVerb = false)
    ∧ (isInstalled es app = false → update env es app = install env es app false)
    ∧ (∀ (acts : List Action) (es' : List Entry), isInstalled es app = true →
        remove env es app = (false, acts, es') → update env es app = (false, acts, es'))
    ∧ (∀ (acts : List Action) (es' : List Entry), isInstalled es app = true →
        remove env es app = (true, acts, es') →
        (install env es' app false).1 = false →
        (update env es app).2.2 = es')
    ∧ (isInstalled es app = true → (getInstallerPath env app).1 = none →
        (remove env es app).1 = true
        ∧ (remove env es app).2.2 = manifestRemoveApp es app
        ∧ isInstalled (manifestRemoveApp es app) app = false) := by
  refine ⟨?_, fun h => update_eq_not_installed env es app htw h,
    fun acts es' h hrem => update_eq_remove_failed env es app htw h hrem,
    fun acts es' h hrem hfail => ?_, fun h hgip => ?_⟩
  · cases hins : isInstalled es app with
    | false =>
      rw [update_eq_not_installed env es app htw hins]
      exact install_no_update_verb env es app false
    | true =>
      rcases hrem : remove env es app with ⟨b, acts, es'⟩
      cases b with
      | false =>
        rw [update_eq_remove_failed env es app htw hins hrem]
        have h1 : acts.any Action.isUpdateVerb = false := by
          have h2 := remove_no_update_verb env es app
          rw [hrem] at h2
          exact h2
        exact h1
      | true =>
        rw [update_eq_remove_ok env es app htw hins hrem]
        simp only [List.any_append]
        have h1 : acts.any Action.isUpdateVerb = false := by
          have h2 := remove_no_update_verb env es app
          rw [hrem] at h2
          exact h2
        rw [h1, install_no_update_verb env es' app false]
        rfl
  · rw [update_eq_remove_ok env es app htw h hrem]
    exact install_fail_keeps_manifest env es' app false hfail
  · rw [remove_fallback env es app htw h hgip]
    exact ⟨rfl, rfl, isInstalled_manifestRemoveApp es app⟩

/-- C5 witness: concrete runs of the two interesting branches — a
not-installed update never emits the `update` verb, and the
no-installer fallback leaves the package NotInstalled. -/
theorem C5_update_behavior_witness :
    ((update envRemote [] "demo").2.1.any Action.isUpdateVerb = false)
    ∧ ((remove envNoInstaller [demoEntry] "demo").1 = true
       ∧ (remove envNoInstaller [demoEntry] "demo").2.2 =
           manifestRemoveApp [demoEntry] "demo"
       ∧ isInstalled (manifestRemoveApp [demoEntry] "demo") "demo" = false) :=
  ⟨(C5_update_behavior envRemote [] "demo" (by decide)).1,
   (C5_update_behavior envNoInstaller [demoEntry] "demo" (by decide)).2.2.2.2
     (by decide) rfl⟩

/-- C6: `TagFilter.matches` accepts an empty filter unconditionally and
otherwise requires every include token and forbids every exclude token
in the (normalized) tag set; with include `hook` and exclude
`deprecated` it accepts `{hook, python}` and rejects
`{hook, deprecated}` and `{python}`. -/
theorem C6_tag_filter_matches :
    (∀ inc exc tags, tagMatches ⟨inc, exc⟩ tags = true ↔
      ((∀ t ∈ inc, t ∈ appTagSet tags) ∧ (∀ t ∈ exc, t ∉ appTagSet tags)))
    ∧ tagMatches ⟨[], []⟩ ["anything"] = true
    ∧ tagMatches ⟨["hook"], ["deprecated"]⟩ ["hook", "python"] = true
    ∧ tagMatches ⟨["hook"], ["deprecated"]⟩ ["hook", "deprecated"] = false
    ∧ tagMatches ⟨["hook"], ["deprecated"]⟩ ["python"] = false := by
  refine ⟨fun inc exc tags => ?_, by decide, by decide, by decide, by decide⟩
  rw [tagMatches_eq]
  simp [List.all_eq_true, List.any_eq_true, List.elem_iff]

/-- C6 witness: the characterization applied at the claim's concrete
filter and tag set. -/
theorem C6_tag_filter_matches_witness :
    tagMatches ⟨["hook"], ["deprecated"]⟩ ["hook", "python", ""] = true :=
  (C6_tag_filter_matches.1 ["hook"] ["deprecated"] ["hook", "python", ""]).mpr
    ⟨by decide, by decide⟩

end Tw

namespace Tw

/-- C7 counterexample: a metadata text with no `name` key parses
without any failure into the full record of its other keys — there is
no ParseError; the `name` lookup merely returns nothing. -/
theorem C7_counterexample :
    metaParse "version=1.0" = [("version", "1.0")]
    ∧ metaGetOpt (metaParse "version=1.0") "name" = none
    ∧ nameBindings "version=1.0" = [] := by decide

/-- C7 (amended): parsing is total — every input yields a MetaRecord —
and the record's `name` lookup returns exactly the value of the last
`name=` line, or nothing when the text contains none; absence of `name`
is surfaced through the lookup default, never through a failure. -/
theorem C7_parse_total : ∀ content : String,
    metaGetOpt (metaParse content) "name" = (nameBindings content).getLast? := by
  intro content
  rw [metaGetOpt_eq_getLast]
  unfold metaParse nameBindings
  rw [List.filterMap_filterMap]
  have hf : (fun x => (parseLine x).bind fun kv =>
        if kv.1 = "name" then some kv.2 else none) =
      (fun rawLine => match parseLine rawLine with
        | some (k, v) => if k = "name" then some v else none
        | none => none) := by
    funext rawLine
    cases h : parseLine rawLine with
    | none => rfl
    | some kv => cases kv with | mk k v => rfl
  rw [hf]

/-- C8: in remote mode the dry-run path of `install` downloads the
installer to a temporary file and returns without unlinking it, while
the non-dry `install` and `remove` paths of the very same environment
do unlink the temporary file (as does the exception path). -/
theorem C8_temp_file_leak :
    (install envRemote [] "demo" true).2.1 =
      [Action.fetchInstaller "demo" (some "/tmp/inst")]
    ∧ Action.unlink "/tmp/inst" ∉ (install envRemote [] "demo" true).2.1
    ∧ Action.unlink "/tmp/inst" ∈ (install envRemote [] "demo" false).2.1
    ∧ Action.unlink "/tmp/inst" ∈ (install envRunError [] "demo" false).2.1
    ∧ Action.unlink "/tmp/inst" ∈ (remove envRemote [demoEntry] "demo").2.1 := by decide

/-- C9 counterexample: a `files=` item without `':'` gets the role
`file`, not `generic`; `file` lies outside the claimed role set. -/
theorem C9_counterexample :
    get_files (metaParse "name=x\nfiles=README.md") = [("README.md", "file")]
    ∧ "file" ∉ (["hook", "script", "config", "doc", "generic"] : List String)
    ∧ get_files (metaParse "name=x\nfiles=README.md") ≠ [("README.md", "generic")] := by
  decide

/-- C9 (amended): the parsed files list has one entry per raw comma
item; an item without a `':'` separator parses to
`(stripped item, "file")`; and the default role `file` — like any
unrecognized role, `generic` included — resolves to the base task
directory. -/
theorem C9_default_role (m : MetaData) (hne : metaGet m "files" "" ≠ "") :
    (get_files m).length = (rawFileItems m).length
    ∧ (∀ (i : ℕ) (item : String), (rawFileItems m).get? i = some item →
        pyContainsChar (pyStrip item) ':' = false →
        (get_files m).get? i = some (pyStrip item, "file"))
    ∧ target_dir "file" = "task_dir" ∧ target_dir "generic" = "task_dir" := by
  have hgf : get_files m = (rawFileItems m).map (fun rawItem =>
      let item := pyStrip rawItem
      match pySplitFirst item ':' with
      | some (filename, file_type) => (pyStrip filename, pyStrip file_type)
      | none => (item, "file")) := by
    show (if metaGet m "files" "" = "" then [] else _) = _
    rw [if_neg hne]
    rfl
  refine ⟨by rw [hgf, List.length_map], ?_, rfl, rfl⟩
  intro i item hitem hcolon
  rw [hgf, List.get?_map, hitem]
  have hnone : pySplitFirst (pyStrip item) ':' = none := by
    unfold pyContainsChar at hcolon
    unfold pySplitFirst
    cases h : splitFirstChars ':' (pyStrip item).data with
    | none => rfl
    | some p => rw [h] at hcolon; cases hcolon
  simp only [Option.map_some']
  rw [hnone]

/-- C9 witness: the colon-free item of a concrete metadata file parses
with role `file`. -/
theorem C9_default_role_witness :
    (get_files (metaParse "name=x\nfiles=README.md")).get? 0 =
      some ("README.md", "file") :=
  (C9_default_role (metaParse "name=x\nfiles=README.md") (by decide)).2.1
    0 "README.md" (by decide) (by decide)

/-- C10: `Manifest.add` is a frame-preserving upsert: the sublist of
entries whose `(app, file)` pair differs is exactly preserved
(elements and relative order), and the new entry sits at the end of the
entry list. -/
theorem C10_add_frame : ∀ (es : List Entry) (a v p c d : String),
    ((manifestAdd es a v p c d).filter (fun e => !(e.app = a && e.file = p)) =
      es.filter (fun e => !(e.app = a && e.file = p)))
    ∧ (manifestAdd es a v p c d).getLast? = some ⟨a, v, p, c, d⟩ := by
  intro es a v p c d
  constructor
  · unfold manifestAdd
    rw [List.filter_append]
    have h1 : ([(⟨a, v, p, c, d⟩ : Entry)]).filter
        (fun e => !(e.app = a && e.file = p)) = [] := by simp
    rw [h1, List.append_nil, List.filter_filter]
    simp [Bool.and_self]
  · unfold manifestAdd
    exact List.getLast?_concat _

end Tw
